import Mathlib

/-!
Shallow embedding of the coverflow carousel core
(`react-spring-coverflow`, file `coverflow.tsx`): position clamping,
windowing of visible items, the geometric transform, the click
dispatcher with its one-shot suppression flag, and the drag-gesture
state machine.  Numeric values carried by the JavaScript code are
modelled as rationals; list positions and indices as integers.
-/

namespace Coverflow

/-- `ItemWithKey`: an item tagged with its original position in the item
list (source: `withKeys`). -/
structure ItemWithKey (T : Type) where
  item : T
  key : ℕ
deriving DecidableEq

/-- `ItemWithIndex`: an item tagged with its original position (`key`) and
its signed offset from the current center (`index`, source: `withIndex`). -/
structure ItemWithIndex (T : Type) where
  item : T
  key : ℕ
  index : ℤ
deriving DecidableEq

/-- Source `withKeys`: `items.map((item, key) => ({ key, item }))`. -/
def withKeys {T : Type} (items : List T) : List (ItemWithKey T) :=
  items.enum.map (fun p => ⟨p.2, p.1⟩)

/-- Source `withIndex`: `items.map((item) => ({ ...item, index: item.key - offset }))`. -/
def withIndex {T : Type} (offset : ℤ) (items : List (ItemWithKey T)) :
    List (ItemWithIndex T) :=
  items.map (fun it => ⟨it.item, it.key, (it.key : ℤ) - offset⟩)

/-- Source `clampPosition`: `Math.max(0, Math.min(n, items.length - 1))`,
with `N` the length of the item list. -/
def clampPosition (N : ℕ) (n : ℤ) : ℤ :=
  max 0 (min n ((N : ℤ) - 1))

/-- Source windowing (`start`/`end`/`visibleItems`):
`start = Math.max(position - sideItems, 0)`,
`end = Math.min(position + sideItems + 1, items.length)`,
`visibleItems = withIndex(position, withKeys(items).slice(start, end))`. -/
def visibleItems {T : Type} (items : List T) (position : ℤ) (sideItems : ℕ) :
    List (ItemWithIndex T) :=
  let a : ℤ := max (position - (sideItems : ℤ)) 0
  let e : ℤ := min (position + (sideItems : ℤ) + 1) (items.length : ℤ)
  withIndex position (((withKeys items).drop a.toNat).take (e - a).toNat)

/-- Geometric configuration of the coverflow, with the source's numeric
props (`scale`, `scaleRatio`, `angle`, `gap`, `centreGap`, `perspective`,
`depth`) as rationals. -/
structure Config where
  scale : ℚ
  scaleRatio : ℚ
  angle : ℚ
  gap : ℚ
  centreGap : ℚ
  perspective : ℚ
  depth : ℚ
deriving DecidableEq

/-- The 3D transform descriptor produced for one visible item: the numbers
interpolated into the CSS `transform` string by `getTransform`. -/
structure Transform where
  translateXPercent : ℚ
  rotateYDegrees : ℚ
  scaleXY : ℚ
  translateZ : ℚ
  perspective : ℚ
deriving DecidableEq

/-- Source `getTransform`:
`transX = index === 0 ? 0 : centreGap * Math.sign(index) + gap * index`,
`rotation = index === 0 ? 0 : -Math.sign(index) * angle`,
`scaleXY = scale * (index === 0 ? 1 : scaleRatio)`,
`transZ = index === 0 ? 0 : -depth`. -/
def getTransform (cfg : Config) (index : ℤ) : Transform :=
  ⟨if index = 0 then 0 else cfg.centreGap * (index.sign : ℚ) + cfg.gap * (index : ℚ),
   if index = 0 then 0 else -((index.sign : ℚ)) * cfg.angle,
   cfg.scale * (if index = 0 then 1 else cfg.scaleRatio),
   if index = 0 then 0 else -cfg.depth,
   cfg.perspective⟩

/-- Source `getZIndex`: `100 - Math.abs(index)`. -/
def getZIndex (index : ℤ) : ℤ :=
  100 - |index|

/-- The outbound click notifications (`itemClicked` / `sideItemClicked`). -/
inductive Remark (T : Type) where
  | itemClicked (item : T)
  | sideItemClicked (item : T)
deriving DecidableEq

/-- The mutable component state: `position` (React state), `lastX` (drag
baseline ref) and `preventClick` (click-suppression ref). -/
structure CFState where
  position : ℤ
  lastX : ℚ
  preventClick : Bool
deriving DecidableEq

/-- Source `handleClick`: if `preventClick` is set, clear it and do nothing
else; if the clicked item's index is 0 fire `itemClicked`; otherwise fire
`sideItemClicked` and, when `clickableSide`, set
`position := position + Math.sign(item.index)`. -/
def handleClick {T : Type} (clickableSide : Bool) (s : CFState)
    (it : ItemWithIndex T) : CFState × List (Remark T) :=
  if s.preventClick then
    (⟨s.position, s.lastX, false⟩, [])
  else if it.index = 0 then
    (s, [Remark.itemClicked it.item])
  else
    (⟨if clickableSide then s.position + it.index.sign else s.position,
      s.lastX, s.preventClick⟩,
     [Remark.sideItemClicked it.item])

/-- One sample of the gesture stream delivered to the `useDrag` handler:
`first` / `active` flags and the cumulative displacement `movement: [mx]`. -/
structure Sample where
  first : Bool
  active : Bool
  mx : ℚ
deriving DecidableEq

/-- `Math.sign` on a rational displacement. -/
def mathSign (q : ℚ) : ℤ :=
  if 0 < q then 1 else if q < 0 then -1 else 0

/-- What one drag sample makes observable besides the state: the follow
offset handed to the springs, whether a commit fired, and the position
right after the sample. -/
structure StepOut where
  follow : ℚ
  committed : Bool
  posAfter : ℤ
deriving DecidableEq

/-- Source `useDrag` handler body, for one sample: reset the baseline on
`first`, compute `newX = mx - lastX`, emit the follow offset
`active ? newX * dragSpeed : 0`, and when `Math.abs(newX) > dragThreshold`
commit `position := clampPosition(position - Math.sign(newX))`, reset the
baseline `lastX := mx`, and set `preventClick`. -/
def dragStep (N : ℕ) (dragThreshold dragSpeed : ℚ) (s : CFState)
    (g : Sample) : CFState × StepOut :=
  let lastX0 : ℚ := if g.first then 0 else s.lastX
  let newX : ℚ := g.mx - lastX0
  let follow : ℚ := if g.active then newX * dragSpeed else 0
  if dragThreshold < |newX| then
    (⟨clampPosition N (s.position - mathSign newX), g.mx, true⟩,
     ⟨follow, true, clampPosition N (s.position - mathSign newX)⟩)
  else
    (⟨s.position, lastX0, s.preventClick⟩, ⟨follow, false, s.position⟩)

/-- Run the drag handler over a whole sample stream, in arrival order,
collecting each sample's observable output. -/
def dragRun (N : ℕ) (dragThreshold dragSpeed : ℚ) :
    CFState → List Sample → CFState × List StepOut
  | s, [] => (s, [])
  | s, g :: gs =>
    let r := dragStep N dragThreshold dragSpeed s g
    let rest := dragRun N dragThreshold dragSpeed r.1 gs
    (rest.1, r.2 :: rest.2)

/-- Number of commits in a run's output stream. -/
def commitCount (outs : List StepOut) : ℕ :=
  (outs.filter (fun o => o.committed)).length

/-- The displacement the drag handler rebases this sample against. -/
def rebased (s : CFState) (g : Sample) : ℚ :=
  g.mx - (if g.first then 0 else s.lastX)

lemma dragStep_commit (N : ℕ) (th sp : ℚ) (s : CFState) (g : Sample)
    (h : th < |rebased s g|) :
    dragStep N th sp s g =
      (⟨clampPosition N (s.position - mathSign (rebased s g)), g.mx, true⟩,
       ⟨if g.active then rebased s g * sp else 0, true,
        clampPosition N (s.position - mathSign (rebased s g))⟩) := by
  simp only [dragStep, rebased] at h ⊢
  rw [if_pos h]

lemma dragStep_nocommit (N : ℕ) (th sp : ℚ) (s : CFState) (g : Sample)
    (h : ¬ th < |rebased s g|) :
    dragStep N th sp s g =
      (⟨s.position, if g.first then 0 else s.lastX, s.preventClick⟩,
       ⟨if g.active then rebased s g * sp else 0, false, s.position⟩) := by
  simp only [dragStep, rebased] at h ⊢
  rw [if_neg h]

lemma handleClick_suppressed {T : Type} (cs : Bool) (s : CFState)
    (it : ItemWithIndex T) (h : s.preventClick = true) :
    handleClick cs s it = (⟨s.position, s.lastX, false⟩, []) := by
  simp [handleClick, h]

/-- Claim C6: for every relativeOffset `k` and configuration, the transform
function computes `translateXPercent = (k = 0 ? 0 : centreGap * sign k + gap * k)`,
`rotateYDegrees = (k = 0 ? 0 : -sign k * angle)`,
`scaleXY = scale * (k = 0 ? 1 : scaleRatio)`,
`translateZ = (k = 0 ? 0 : -depth)`, and `zIndex = 100 - |k|`; in
particular offset 0 yields `translateXPercent = 0`, `rotateYDegrees = 0`,
`translateZ = 0` and `scaleXY = scale`. -/
theorem claim_C6 (cfg : Config) (k : ℤ) :
    (getTransform cfg k).translateXPercent
      = (if k = 0 then 0 else cfg.centreGap * (k.sign : ℚ) + cfg.gap * (k : ℚ)) ∧
    (getTransform cfg k).rotateYDegrees
      = (if k = 0 then 0 else -((k.sign : ℚ)) * cfg.angle) ∧
    (getTransform cfg k).scaleXY
      = cfg.scale * (if k = 0 then 1 else cfg.scaleRatio) ∧
    (getTransform cfg k).translateZ = (if k = 0 then 0 else -cfg.depth) ∧
    getZIndex k = 100 - |k| ∧
    (getTransform cfg 0).translateXPercent = 0 ∧
    (getTransform cfg 0).rotateYDegrees = 0 ∧
    (getTransform cfg 0).translateZ = 0 ∧
    (getTransform cfg 0).scaleXY = cfg.scale := by
  refine ⟨rfl, rfl, rfl, rfl, rfl, ?_, ?_, ?_, ?_⟩ <;> simp [getTransform]

/-- Claim C7: for every `k > 0` and identical configuration, the transforms
at offsets `+k` and `-k` have rotations equal in magnitude and opposite in
sign, equal `translateZ`, equal `scaleXY`, and equal `zIndex`. -/
theorem claim_C7 (cfg : Config) (k : ℤ) (hk : 0 < k) :
    (getTransform cfg k).rotateYDegrees
      = -((getTransform cfg (-k)).rotateYDegrees) ∧
    |(getTransform cfg k).rotateYDegrees|
      = |(getTransform cfg (-k)).rotateYDegrees| ∧
    (getTransform cfg k).translateZ = (getTransform cfg (-k)).translateZ ∧
    (getTransform cfg k).scaleXY = (getTransform cfg (-k)).scaleXY ∧
    getZIndex k = getZIndex (-k) := by
  have hk0 : k ≠ 0 := ne_of_gt hk
  have hkneg : -k ≠ 0 := by omega
  have hs : k.sign = 1 := Int.sign_eq_one_of_pos hk
  have hs' : (-k).sign = -1 := Int.sign_eq_neg_one_of_neg (by omega)
  refine ⟨?_, ?_, ?_, ?_, ?_⟩ <;>
    simp [getTransform, getZIndex, hk0, hkneg, hs, hs', abs_neg]

/-- Witness for C7 at `k = 2`. -/
theorem claim_C7_witness :
    (0 : ℤ) < 2 ∧
    ((getTransform ⟨1, 1, 60, 20, 40, 1000, 200⟩ 2).rotateYDegrees
      = -((getTransform ⟨1, 1, 60, 20, 40, 1000, 200⟩ (-2)).rotateYDegrees) ∧
    |(getTransform ⟨1, 1, 60, 20, 40, 1000, 200⟩ 2).rotateYDegrees|
      = |(getTransform ⟨1, 1, 60, 20, 40, 1000, 200⟩ (-2)).rotateYDegrees| ∧
    (getTransform ⟨1, 1, 60, 20, 40, 1000, 200⟩ 2).translateZ
      = (getTransform ⟨1, 1, 60, 20, 40, 1000, 200⟩ (-2)).translateZ ∧
    (getTransform ⟨1, 1, 60, 20, 40, 1000, 200⟩ 2).scaleXY
      = (getTransform ⟨1, 1, 60, 20, 40, 1000, 200⟩ (-2)).scaleXY ∧
    getZIndex 2 = getZIndex (-2)) :=
  ⟨by norm_num, claim_C7 ⟨1, 1, 60, 20, 40, 1000, 200⟩ 2 (by norm_num)⟩

lemma visibleItems_length_eq {T : Type} (items : List T) (p : ℤ) (si : ℕ) :
    (visibleItems items p si).length
      = (min (p + (si : ℤ) + 1) (items.length : ℤ) - max (p - (si : ℤ)) 0).toNat := by
  simp only [visibleItems, withIndex, withKeys, List.length_map, List.length_take,
    List.length_drop, List.enum_length]
  omega

lemma visibleItems_key_lt {T : Type} (items : List T) (p : ℤ) (si : ℕ) (j : ℕ)
    (h : j < (visibleItems items p si).length) :
    (max (p - (si : ℤ)) 0).toNat + j < items.length := by
  rw [visibleItems_length_eq] at h
  omega

lemma visibleItems_get {T : Type} (items : List T) (p : ℤ) (si : ℕ) (j : ℕ)
    (h : j < (visibleItems items p si).length) :
    (visibleItems items p si).get ⟨j, h⟩
      = ⟨items.get ⟨(max (p - (si : ℤ)) 0).toNat + j, visibleItems_key_lt items p si j h⟩,
         (max (p - (si : ℤ)) 0).toNat + j,
         (((max (p - (si : ℤ)) 0).toNat + j : ℕ) : ℤ) - p⟩ := by
  simp only [visibleItems, withIndex, withKeys, List.get_eq_getElem, List.getElem_map,
    List.getElem_take, List.getElem_drop, List.getElem_enum]

lemma visibleItems_getElem {T : Type} (items : List T) (p : ℤ) (si : ℕ) (j : ℕ)
    (h : j < (visibleItems items p si).length) :
    (visibleItems items p si)[j]
      = ⟨items.get ⟨(max (p - (si : ℤ)) 0).toNat + j, visibleItems_key_lt items p si j h⟩,
         (max (p - (si : ℤ)) 0).toNat + j,
         (((max (p - (si : ℤ)) 0).toNat + j : ℕ) : ℤ) - p⟩ := by
  simp only [visibleItems, withIndex, withKeys, List.get_eq_getElem, List.getElem_map,
    List.getElem_take, List.getElem_drop, List.getElem_enum]

lemma mem_visibleItems {T : Type} (items : List T) (p : ℤ) (si : ℕ)
    (it : ItemWithIndex T) (h : it ∈ visibleItems items p si) :
    it.index = (it.key : ℤ) - p ∧
    max (p - (si : ℤ)) 0 ≤ (it.key : ℤ) ∧
    (it.key : ℤ) < min (p + (si : ℤ) + 1) (items.length : ℤ) ∧
    items.get? it.key = some it.item := by
  obtain ⟨⟨j, hj⟩, rfl⟩ := List.mem_iff_get.mp h
  rw [visibleItems_get items p si j hj]
  have hlen := hj
  rw [visibleItems_length_eq] at hlen
  have hkey := visibleItems_key_lt items p si j hj
  refine ⟨rfl, by push_cast; omega, by push_cast; omega, ?_⟩
  rw [List.get?_eq_get hkey, List.get_eq_getElem]

/-- Claim C5: the windowing output is exactly the items with original
indices in `[max(0, p - s), min(N, p + s + 1))`, in original list order,
each carrying `key` = original index and `relativeOffset = key - p`; the
window never crosses the list ends, and when `p` lies within the list
exactly one emitted item has relativeOffset 0. -/
theorem claim_C5 {α : Type} (items : List α) (p : ℤ) (si : ℕ) (hp : 0 ≤ p) :
    (visibleItems items p si).length
      = (min (p + (si : ℤ) + 1) (items.length : ℤ) - max (p - (si : ℤ)) 0).toNat ∧
    (visibleItems items p si).map (fun it => it.key)
      = List.range' (max (p - (si : ℤ)) 0).toNat
          (min (p + (si : ℤ) + 1) (items.length : ℤ) - max (p - (si : ℤ)) 0).toNat ∧
    (∀ it ∈ visibleItems items p si,
        it.index = (it.key : ℤ) - p ∧
        max (p - (si : ℤ)) 0 ≤ (it.key : ℤ) ∧
        (it.key : ℤ) < min (p + (si : ℤ) + 1) (items.length : ℤ) ∧
        items.get? it.key = some it.item) ∧
    (p < (items.length : ℤ) →
      ∃! j : Fin (visibleItems items p si).length,
        ((visibleItems items p si).get j).index = 0) := by
  refine ⟨visibleItems_length_eq items p si, ?_, ?_, ?_⟩
  · apply List.ext_get
    · simp [visibleItems_length_eq, List.length_range']
    · intro j h1 h2
      have h1' : j < (visibleItems items p si).length := by simpa using h1
      rw [List.get_eq_getElem, List.get_eq_getElem]
      simp only [List.getElem_map, Fin.val_mk]
      rw [visibleItems_getElem items p si j h1']
      simp [List.getElem_range']
  · intro it h
    exact mem_visibleItems items p si it h
  · intro hpN
    have hlen := visibleItems_length_eq items p si
    have hjlt : p.toNat - (max (p - (si : ℤ)) 0).toNat < (visibleItems items p si).length := by
      omega
    refine ⟨⟨p.toNat - (max (p - (si : ℤ)) 0).toNat, hjlt⟩, ?_, ?_⟩
    · show ((visibleItems items p si).get ⟨p.toNat - (max (p - (si : ℤ)) 0).toNat, hjlt⟩).index = 0
      rw [visibleItems_get items p si _ hjlt]
      push_cast
      omega
    · intro ⟨j, hj⟩ hval
      have hval' : ((visibleItems items p si).get ⟨j, hj⟩).index = 0 := hval
      rw [visibleItems_get items p si j hj] at hval'
      simp only at hval'
      ext
      simp only
      omega

/-- Witness for C5: list `[10, 20, 30, 40, 50]`, position 2, one side item;
the window is indices `[1, 4)` with offsets `-1, 0, 1`. -/
theorem claim_C5_witness :
    ((0 : ℤ) ≤ 2 ∧ (2 : ℤ) < ([10, 20, 30, 40, 50] : List ℕ).length) ∧
    (visibleItems [10, 20, 30, 40, 50] (2 : ℤ) 1).length
      = (min ((2 : ℤ) + 1 + 1) (([10, 20, 30, 40, 50] : List ℕ).length : ℤ)
          - max ((2 : ℤ) - 1) 0).toNat ∧
    (visibleItems [10, 20, 30, 40, 50] (2 : ℤ) 1).map (fun it => it.key)
      = List.range' (max ((2 : ℤ) - 1) 0).toNat
          (min ((2 : ℤ) + 1 + 1) (([10, 20, 30, 40, 50] : List ℕ).length : ℤ)
            - max ((2 : ℤ) - 1) 0).toNat ∧
    (∃! j : Fin (visibleItems [10, 20, 30, 40, 50] (2 : ℤ) 1).length,
        ((visibleItems [10, 20, 30, 40, 50] (2 : ℤ) 1).get j).index = 0) := by
  have h := claim_C5 [10, 20, 30, 40, 50] 2 1 (by norm_num)
  exact ⟨⟨by norm_num, by norm_num⟩, h.1, h.2.1, h.2.2.2 (by norm_num)⟩

/-- Claim C2: clicking a visible item with nonzero relativeOffset while the
suppression flag is clear fires `sideItemClicked` exactly once with that
item's value, and the position changes by exactly `sign(index)` when
`clickableSide` is true and is unchanged when it is false. -/
theorem claim_C2 {α : Type} (items : List α) (si : ℕ) (cs : Bool)
    (s : CFState) (it : ItemWithIndex α)
    (hv : it ∈ visibleItems items s.position si)
    (hk : it.index ≠ 0) (hpc : s.preventClick = false) :
    (handleClick cs s it).2 = [Remark.sideItemClicked it.item] ∧
    (handleClick cs s it).1.position
      = (if cs then s.position + it.index.sign else s.position) ∧
    (handleClick cs s it).1.preventClick = false := by
  simp [handleClick, hpc, hk]

/-- Witness for C2: list `[10, 20, 30]`, center 1, click on the item at
offset 1 with `clickableSide = true`. -/
theorem claim_C2_witness :
    ((⟨30, 2, 1⟩ : ItemWithIndex ℕ) ∈ visibleItems [10, 20, 30] (1 : ℤ) 1 ∧
     (1 : ℤ) ≠ 0 ∧ (false : Bool) = false) ∧
    ((handleClick true ⟨1, 0, false⟩ (⟨30, 2, 1⟩ : ItemWithIndex ℕ)).2
       = [Remark.sideItemClicked 30] ∧
     (handleClick true ⟨1, 0, false⟩ (⟨30, 2, 1⟩ : ItemWithIndex ℕ)).1.position
       = (if true then (1 : ℤ) + (1 : ℤ).sign else 1) ∧
     (handleClick true ⟨1, 0, false⟩ (⟨30, 2, 1⟩ : ItemWithIndex ℕ)).1.preventClick
       = false) :=
  ⟨⟨by decide, by decide, rfl⟩,
   claim_C2 [10, 20, 30] 1 true ⟨1, 0, false⟩ ⟨30, 2, 1⟩ (by decide)
     (by decide) rfl⟩

/-- Claim C3: whenever a drag sample commits, the resulting state has the
suppression flag set; the very next click (on any item, with any
`clickableSide`) fires no notification, leaves the position unchanged and
clears the flag, so the following click behaves normally. -/
theorem claim_C3 {α : Type} (N : ℕ) (th sp : ℚ) (s : CFState) (g : Sample)
    (cs : Bool) (it : ItemWithIndex α)
    (hcommit : (dragStep N th sp s g).2.committed = true) :
    (dragStep N th sp s g).1.preventClick = true ∧
    (handleClick cs (dragStep N th sp s g).1 it).2 = [] ∧
    (handleClick cs (dragStep N th sp s g).1 it).1.position
      = (dragStep N th sp s g).1.position ∧
    (handleClick cs (dragStep N th sp s g).1 it).1.preventClick = false := by
  by_cases h : th < |rebased s g|
  · rw [dragStep_commit N th sp s g h]
    exact ⟨rfl, by simp [handleClick], by simp [handleClick], by simp [handleClick]⟩
  · rw [dragStep_nocommit N th sp s g h] at hcommit
    exact absurd hcommit (by simp)

/-- Witness for C3: a commit at threshold 100 with displacement 150, then a
click on a concrete item. -/
theorem claim_C3_witness :
    (dragStep 3 100 (1/2) ⟨1, 0, false⟩ ⟨true, true, 150⟩).2.committed = true ∧
    ((dragStep 3 100 (1/2) ⟨1, 0, false⟩ ⟨true, true, 150⟩).1.preventClick = true ∧
     (handleClick true (dragStep 3 100 (1/2) ⟨1, 0, false⟩ ⟨true, true, 150⟩).1
        (⟨7, 2, 1⟩ : ItemWithIndex ℕ)).2 = [] ∧
     (handleClick true (dragStep 3 100 (1/2) ⟨1, 0, false⟩ ⟨true, true, 150⟩).1
        (⟨7, 2, 1⟩ : ItemWithIndex ℕ)).1.position
       = (dragStep 3 100 (1/2) ⟨1, 0, false⟩ ⟨true, true, 150⟩).1.position ∧
     (handleClick true (dragStep 3 100 (1/2) ⟨1, 0, false⟩ ⟨true, true, 150⟩).1
        (⟨7, 2, 1⟩ : ItemWithIndex ℕ)).1.preventClick = false) := by
  have hc : (dragStep 3 100 (1/2) ⟨1, 0, false⟩ ⟨true, true, 150⟩).2.committed = true := by
    rw [dragStep_commit 3 100 (1/2) ⟨1, 0, false⟩ ⟨true, true, 150⟩
      (by norm_num [rebased])]
  exact ⟨hc, claim_C3 3 100 (1/2) ⟨1, 0, false⟩ ⟨true, true, 150⟩ true ⟨7, 2, 1⟩ hc⟩

/-- Claim C9: any sample whose rebased displacement strictly exceeds the
threshold sets the suppression flag and rebases the baseline to the current
cumulative displacement, even when the clamped adjustment leaves the
position unchanged (at a list boundary), in which case the next click is
still discarded although no position change occurred. -/
theorem claim_C9 {α : Type} (N : ℕ) (th sp : ℚ) (s : CFState) (g : Sample)
    (cs : Bool) (it : ItemWithIndex α)
    (hth : th < |rebased s g|) :
    (dragStep N th sp s g).1.preventClick = true ∧
    (dragStep N th sp s g).1.lastX = g.mx ∧
    (clampPosition N (s.position - mathSign (rebased s g)) = s.position →
      (dragStep N th sp s g).1.position = s.position ∧
      (handleClick cs (dragStep N th sp s g).1 it).2 = [] ∧
      (handleClick cs (dragStep N th sp s g).1 it).1.position = s.position) := by
  rw [dragStep_commit N th sp s g hth]
  refine ⟨rfl, rfl, fun hfix => ⟨hfix, ?_, ?_⟩⟩ <;> simp [handleClick, hfix]

/-- Witness for C9: a one-item list at position 0, drag right past the
threshold; the clamp fixes the position yet the flag is set and the next
click is dropped. -/
theorem claim_C9_witness :
    ((100 : ℚ) < |rebased ⟨0, 0, false⟩ ⟨true, true, 150⟩| ∧
     clampPosition 1 ((0 : ℤ) - mathSign (rebased ⟨0, 0, false⟩ ⟨true, true, 150⟩)) = 0) ∧
    ((dragStep 1 100 (1/2) ⟨0, 0, false⟩ ⟨true, true, 150⟩).1.preventClick = true ∧
     (dragStep 1 100 (1/2) ⟨0, 0, false⟩ ⟨true, true, 150⟩).1.lastX = 150 ∧
     (dragStep 1 100 (1/2) ⟨0, 0, false⟩ ⟨true, true, 150⟩).1.position = 0 ∧
     (handleClick true (dragStep 1 100 (1/2) ⟨0, 0, false⟩ ⟨true, true, 150⟩).1
        (⟨5, 0, 0⟩ : ItemWithIndex ℕ)).2 = [] ∧
     (handleClick true (dragStep 1 100 (1/2) ⟨0, 0, false⟩ ⟨true, true, 150⟩).1
        (⟨5, 0, 0⟩ : ItemWithIndex ℕ)).1.position = 0) := by
  have h1 : (100 : ℚ) < |rebased ⟨0, 0, false⟩ ⟨true, true, 150⟩| := by
    norm_num [rebased]
  have h2 : clampPosition 1 ((0 : ℤ) - mathSign (rebased ⟨0, 0, false⟩ ⟨true, true, 150⟩)) = 0 := by
    norm_num [rebased, mathSign, clampPosition]
  have h := claim_C9 1 100 (1/2) ⟨0, 0, false⟩ ⟨true, true, 150⟩ true
    (⟨5, 0, 0⟩ : ItemWithIndex ℕ) h1
  exact ⟨⟨h1, h2⟩, h.1, h.2.1, (h.2.2 h2).1, (h.2.2 h2).2.1, (h.2.2 h2).2.2⟩

/-- Claim C4: `clamp(n) = max(0, min(n, N-1))` lands in `[0, N-1]` for
`N ≥ 1`, and every mutation of the position (initialization, drag commit,
click with `clickableSide` true on a currently visible item) keeps the
position in `[0, N-1]`. -/
theorem claim_C4 {α : Type} (N : ℕ) (hN : 1 ≤ N) :
    (∀ n : ℤ, clampPosition N n = max 0 (min n ((N : ℤ) - 1)) ∧
        0 ≤ clampPosition N n ∧ clampPosition N n ≤ (N : ℤ) - 1) ∧
    (∀ startPosition : ℤ, 0 ≤ clampPosition N startPosition ∧
        clampPosition N startPosition ≤ (N : ℤ) - 1) ∧
    (∀ (th sp : ℚ) (s : CFState) (g : Sample),
        0 ≤ s.position → s.position ≤ (N : ℤ) - 1 →
        0 ≤ (dragStep N th sp s g).1.position ∧
        (dragStep N th sp s g).1.position ≤ (N : ℤ) - 1) ∧
    (∀ (items : List α) (si : ℕ) (s : CFState) (it : ItemWithIndex α),
        items.length = N → 0 ≤ s.position → s.position ≤ (N : ℤ) - 1 →
        it ∈ visibleItems items s.position si →
        0 ≤ (handleClick true s it).1.position ∧
        (handleClick true s it).1.position ≤ (N : ℤ) - 1) := by
  have hclamp : ∀ n : ℤ, 0 ≤ clampPosition N n ∧ clampPosition N n ≤ (N : ℤ) - 1 := by
    intro n
    unfold clampPosition
    omega
  refine ⟨fun n => ⟨rfl, hclamp n⟩, fun sp => hclamp sp, ?_, ?_⟩
  · intro th sp s g h0 h1
    by_cases h : th < |rebased s g|
    · rw [dragStep_commit N th sp s g h]
      exact hclamp _
    · rw [dragStep_nocommit N th sp s g h]
      exact ⟨h0, h1⟩
  · intro items si s it hlen h0 h1 hmem
    obtain ⟨hidx, hlo, hhi, -⟩ := mem_visibleItems items s.position si it hmem
    rw [hlen] at hhi
    by_cases hpc : s.preventClick = true
    · rw [handleClick_suppressed true s it hpc]
      exact ⟨h0, h1⟩
    · have hpcf : s.preventClick = false := by
        cases h' : s.preventClick
        · rfl
        · exact absurd h' hpc
      by_cases hz : it.index = 0
      · have hcenter : handleClick true s it = (s, [Remark.itemClicked it.item]) := by
          unfold handleClick
          rw [hpcf, hz]
          simp
        rw [hcenter]
        exact ⟨h0, h1⟩
      · have hside : handleClick true s it
            = (⟨s.position + it.index.sign, s.lastX, s.preventClick⟩,
               [Remark.sideItemClicked it.item]) := by
          unfold handleClick
          rw [hpcf]
          simp [hz]
        rw [hside]
        simp only
        rcases lt_trichotomy it.index 0 with hlt | heq | hgt
        · rw [Int.sign_eq_neg_one_of_neg hlt]
          omega
        · exact absurd heq hz
        · rw [Int.sign_eq_one_of_pos hgt]
          omega

/-- Witness for C4: three items, position 1, drag sample and a visible side
item at offset 1. -/
theorem claim_C4_witness :
    (1 ≤ 3 ∧ ([10, 20, 30] : List ℕ).length = 3 ∧ (0 : ℤ) ≤ 1 ∧ (1 : ℤ) ≤ (3 : ℤ) - 1 ∧
     (⟨30, 2, 1⟩ : ItemWithIndex ℕ) ∈ visibleItems [10, 20, 30] (1 : ℤ) 1) ∧
    (clampPosition 3 7 = max 0 (min 7 ((3 : ℤ) - 1)) ∧
     0 ≤ clampPosition 3 7 ∧ clampPosition 3 7 ≤ (3 : ℤ) - 1) ∧
    (0 ≤ (dragStep 3 100 (1/2) ⟨1, 0, false⟩ ⟨true, true, 150⟩).1.position ∧
     (dragStep 3 100 (1/2) ⟨1, 0, false⟩ ⟨true, true, 150⟩).1.position ≤ (3 : ℤ) - 1) ∧
    (0 ≤ (handleClick true ⟨1, 0, false⟩ (⟨30, 2, 1⟩ : ItemWithIndex ℕ)).1.position ∧
     (handleClick true ⟨1, 0, false⟩ (⟨30, 2, 1⟩ : ItemWithIndex ℕ)).1.position ≤ (3 : ℤ) - 1) :=
  ⟨⟨by norm_num, by norm_num, by norm_num, by norm_num, by decide⟩,
   (claim_C4 (α := ℕ) 3 (by norm_num)).1 7,
   (claim_C4 (α := ℕ) 3 (by norm_num)).2.2.1 100 (1/2) ⟨1, 0, false⟩ ⟨true, true, 150⟩
     (by norm_num) (by norm_num),
   (claim_C4 (α := ℕ) 3 (by norm_num)).2.2.2 [10, 20, 30] 1 ⟨1, 0, false⟩ ⟨30, 2, 1⟩
     (by norm_num) (by norm_num) (by norm_num) (by decide)⟩

/-- Claim C10: with an empty item list every operation is total: the
initial position is `max(0, min(startPosition, -1)) = 0`, the visible
window is empty, and hence no click on a visible item can occur. -/
theorem claim_C10 {α : Type} (startPosition : ℤ) (hsp : 0 ≤ startPosition)
    (p : ℤ) (si : ℕ) :
    clampPosition 0 startPosition = max 0 (min startPosition (-1)) ∧
    clampPosition 0 startPosition = 0 ∧
    visibleItems ([] : List α) p si = [] ∧
    ∀ it : ItemWithIndex α, it ∉ visibleItems ([] : List α) p si := by
  have hempty : visibleItems ([] : List α) p si = [] := by
    simp [visibleItems, withKeys, withIndex]
  refine ⟨by norm_num [clampPosition], by unfold clampPosition; omega, hempty, ?_⟩
  intro it
  rw [hempty]
  exact List.not_mem_nil it

/-- Witness for C10 at `startPosition = 5`, `p = 0`, `si = 3`. -/
theorem claim_C10_witness :
    (0 : ℤ) ≤ 5 ∧
    clampPosition 0 5 = max 0 (min 5 (-1)) ∧
    clampPosition 0 5 = 0 ∧
    visibleItems ([] : List ℕ) 0 3 = [] ∧
    (⟨0, 0, 0⟩ : ItemWithIndex ℕ) ∉ visibleItems ([] : List ℕ) 0 3 :=
  ⟨by norm_num,
   (claim_C10 (α := ℕ) 5 (by norm_num) 0 3).1,
   (claim_C10 (α := ℕ) 5 (by norm_num) 0 3).2.1,
   (claim_C10 (α := ℕ) 5 (by norm_num) 0 3).2.2.1,
   (claim_C10 (α := ℕ) 5 (by norm_num) 0 3).2.2.2 ⟨0, 0, 0⟩⟩

lemma dragStep_speed_fixed (N : ℕ) (th sp1 sp2 : ℚ) (s : CFState) (g : Sample) :
    (dragStep N th sp1 s g).1 = (dragStep N th sp2 s g).1 ∧
    (dragStep N th sp1 s g).2.committed = (dragStep N th sp2 s g).2.committed ∧
    (dragStep N th sp1 s g).2.posAfter = (dragStep N th sp2 s g).2.posAfter := by
  by_cases h : th < |rebased s g|
  · rw [dragStep_commit N th sp1 s g h, dragStep_commit N th sp2 s g h]
    exact ⟨rfl, rfl, rfl⟩
  · rw [dragStep_nocommit N th sp1 s g h, dragStep_nocommit N th sp2 s g h]
    exact ⟨rfl, rfl, rfl⟩

/-- Claim C8: two runs of the drag machine on the same sample stream that
differ only in `dragSpeed` produce the same final state and the same
commit/position sequence; the speed only scales the follow offset, which is
`rebased * dragSpeed` while active and 0 otherwise. -/
theorem claim_C8 (N : ℕ) (th sp1 sp2 : ℚ) (s : CFState) (gs : List Sample) :
    (dragRun N th sp1 s gs).1 = (dragRun N th sp2 s gs).1 ∧
    (dragRun N th sp1 s gs).2.map (fun o => (o.committed, o.posAfter))
      = (dragRun N th sp2 s gs).2.map (fun o => (o.committed, o.posAfter)) ∧
    ∀ g : Sample, (dragStep N th sp1 s g).2.follow
        = (if g.active then rebased s g * sp1 else 0) := by
  have hfollow : ∀ (s' : CFState) (g : Sample), (dragStep N th sp1 s' g).2.follow
      = (if g.active then rebased s' g * sp1 else 0) := by
    intro s' g
    by_cases h : th < |rebased s' g|
    · rw [dragStep_commit N th sp1 s' g h]
    · rw [dragStep_nocommit N th sp1 s' g h]
  refine ⟨?_, ?_, hfollow s⟩ <;> (
    induction gs generalizing s with
    | nil => simp [dragRun]
    | cons g gs ih =>
      obtain ⟨hst, hcm, hpa⟩ := dragStep_speed_fixed N th sp1 sp2 s g
      simp only [dragRun, List.map_cons]
      rw [hst]
      first
        | exact ih _
        | (rw [hcm, hpa]; exact congrArg _ (ih _)))

/-- The direction of a drag toward displacement `d`: `-1` for leftward
(`d < 0`), `1` otherwise. Multiplying displacements by this factor turns a
monotone drag toward `d` of either direction into a non-decreasing
sequence in `[0, |d|]`. -/
def dirOf (d : ℚ) : ℚ :=
  if d < 0 then -1 else 1

lemma dirOf_cases (d : ℚ) : dirOf d = 1 ∨ dirOf d = -1 := by
  unfold dirOf
  split
  · right; rfl
  · left; rfl

lemma dirOf_mul_self (d : ℚ) : dirOf d * d = |d| := by
  unfold dirOf
  by_cases h : d < 0
  · rw [if_pos h, abs_of_neg h]
    ring
  · rw [if_neg h, abs_of_nonneg (le_of_not_lt h)]
    ring

/-- A tail of a gesture stream of a drag toward `d`: every sample is
non-first and the displacements move monotonically from `b` toward `d`
without overshooting (non-decreasing in `[b, d]` for a rightward drag,
non-increasing in `[d, b]` for a leftward one). -/
def monoTail (d : ℚ) : ℚ → List Sample → Prop
  | _, [] => True
  | b, g :: gs => g.first = false ∧ dirOf d * b ≤ dirOf d * g.mx ∧
      dirOf d * g.mx ≤ dirOf d * d ∧ monoTail d g.mx gs

/-- A single continuous monotone drag toward `d` (of either direction):
the head sample is the first of its gesture, and the displacements move
monotonically from 0 toward `d`. -/
def MonoDrag (d : ℚ) : List Sample → Prop
  | [] => True
  | g :: gs => g.first = true ∧ 0 ≤ dirOf d * g.mx ∧
      dirOf d * g.mx ≤ dirOf d * d ∧ monoTail d g.mx gs

lemma monoTail_mono (d b b' : ℚ) (h : dirOf d * b' ≤ dirOf d * b) :
    ∀ gs, monoTail d b gs → monoTail d b' gs
  | [], _ => trivial
  | _ :: _, ⟨h1, h2, h3, h4⟩ => ⟨h1, le_trans h h2, h3, h4⟩

/-- At any sample of a drag toward `d` whose rebased displacement strictly
exceeds the positive threshold in the drag's direction, `Math.sign` of the
rebased displacement agrees with `Math.sign(d)`. -/
lemma mathSign_eq_of_dir (d x th : ℚ) (hth : 0 < th) (hx : th < dirOf d * x)
    (hxd : dirOf d * x ≤ dirOf d * d) : mathSign x = mathSign d := by
  unfold dirOf at hx hxd
  by_cases h : d < 0
  · rw [if_pos h] at hx hxd
    have hx0 : x < 0 := by linarith
    unfold mathSign
    rw [if_neg (by linarith), if_pos hx0, if_neg (by linarith), if_pos h]
  · rw [if_neg h] at hx hxd
    have hx0 : 0 < x := by linarith
    have hd0 : 0 < d := by linarith
    unfold mathSign
    rw [if_pos hx0, if_pos hd0]

lemma commitCount_cons (o : StepOut) (outs : List StepOut) :
    commitCount (o :: outs) = (if o.committed then 1 else 0) + commitCount outs := by
  simp only [commitCount, List.filter_cons]
  cases h : o.committed <;> simp <;> omega

/-- Running the drag machine on a monotone non-first tail of a drag toward
`d` (either direction): the direction-scaled baseline stays within
`[0, dirOf d * d]`, strictly grows by more than the threshold per commit,
and the position is the clamp of `p - sign(d)` iterated once per commit. -/
lemma dragRun_tail_bound (N : ℕ) (th sp d : ℚ) (hth : 0 < th) :
    ∀ (gs : List Sample) (s : CFState), monoTail d s.lastX gs →
      0 ≤ dirOf d * s.lastX → dirOf d * s.lastX ≤ dirOf d * d →
      dirOf d * (dragRun N th sp s gs).1.lastX ≤ dirOf d * d ∧
      0 ≤ dirOf d * (dragRun N th sp s gs).1.lastX ∧
      (dirOf d * s.lastX + (commitCount (dragRun N th sp s gs).2 : ℚ) * th
          < dirOf d * (dragRun N th sp s gs).1.lastX ∨
        (commitCount (dragRun N th sp s gs).2 = 0 ∧
         (dragRun N th sp s gs).1.lastX = s.lastX)) ∧
      (dragRun N th sp s gs).1.position
        = (fun p => clampPosition N (p - mathSign d))^[commitCount (dragRun N th sp s gs).2]
            s.position
  | [], s, _, h0, hd => by
    refine ⟨hd, h0, Or.inr ⟨rfl, rfl⟩, rfl⟩
  | g :: gs, s, ⟨hf, hb, hdd, htail⟩, h0, hd => by
    have hreb : rebased s g = g.mx - s.lastX := by
      simp [rebased, hf]
    have hsplit : dirOf d * (g.mx - s.lastX) = dirOf d * g.mx - dirOf d * s.lastX := by
      ring
    by_cases hcm : th < |rebased s g|
    · have habs : |g.mx - s.lastX| = dirOf d * (g.mx - s.lastX) := by
        rcases dirOf_cases d with h | h <;> rw [h] at hb ⊢
        · rw [one_mul, one_mul] at hb
          rw [one_mul, abs_of_nonneg (by linarith)]
        · rw [abs_of_nonpos (by nlinarith)]
          ring
      have hpos : th < dirOf d * g.mx - dirOf d * s.lastX := by
        rw [hreb, habs, hsplit] at hcm
        exact hcm
      have hsgn : mathSign (rebased s g) = mathSign d := by
        rw [hreb]
        refine mathSign_eq_of_dir d (g.mx - s.lastX) th hth ?_ ?_
        · rw [hsplit]; exact hpos
        · rw [hsplit]; linarith
      have hstep := dragStep_commit N th sp s g hcm
      rw [hsgn] at hstep
      have ih := dragRun_tail_bound N th sp d hth gs
        ⟨clampPosition N (s.position - mathSign d), g.mx, true⟩ htail (by linarith) hdd
      simp only [dragRun, hstep, commitCount_cons, if_pos]
      obtain ⟨ih1, ih2, ih3, ih4⟩ := ih
      refine ⟨ih1, ih2, ?_, ?_⟩
      · rcases ih3 with h | ⟨hc, he⟩
        · left
          push_cast
          push_cast at h
          nlinarith [hth]
        · left
          rw [hc, he]
          push_cast
          linarith
      · rw [ih4]
        rw [Nat.add_comm, Function.iterate_add_apply]
        simp
    · have hstep := dragStep_nocommit N th sp s g hcm
      rw [hf] at hstep
      simp only [if_neg Bool.false_ne_true] at hstep
      have ih := dragRun_tail_bound N th sp d hth gs
        ⟨s.position, s.lastX, s.preventClick⟩
        (monoTail_mono d g.mx s.lastX hb gs htail) h0 hd
      simp only [dragRun, hstep, commitCount_cons, if_neg]
      simpa using ih

/-- A first sample from any baseline behaves like a non-first sample from
baseline 0. -/
lemma dragRun_first (N : ℕ) (th sp : ℚ) (p0 : ℤ) (lx : ℚ) (pc : Bool)
    (g : Sample) (gs : List Sample) (h : g.first = true) :
    dragRun N th sp ⟨p0, lx, pc⟩ (g :: gs)
      = dragRun N th sp ⟨p0, 0, pc⟩ (⟨false, g.active, g.mx⟩ :: gs) := by
  have hstep : dragStep N th sp ⟨p0, lx, pc⟩ g
      = dragStep N th sp ⟨p0, 0, pc⟩ ⟨false, g.active, g.mx⟩ := by
    simp [dragStep, h]
  simp only [dragRun, hstep]

/-- Claim C1 (amended): for `N ≥ 1`, threshold `> 0` and a single monotone
drag toward displacement `d` (either direction), the machine commits at
most `⌊|d| / threshold⌋` position changes, each of the form
`Position := clamp(Position - sign(d))`; the exact count depends on the
sampling: the drag reaching displacement 250 through samples 101, 202, 250
at threshold 100 commits exactly 2 changes, each a clamped decrement,
ending two steps left of the start. -/
theorem claim_C1 :
    (∀ (N : ℕ) (th sp d : ℚ) (p0 : ℤ) (lx : ℚ) (pc : Bool) (gs : List Sample),
      1 ≤ N → 0 < th → MonoDrag d gs →
      (commitCount (dragRun N th sp ⟨p0, lx, pc⟩ gs).2 : ℤ) ≤ ⌊|d| / th⌋ ∧
      (dragRun N th sp ⟨p0, lx, pc⟩ gs).1.position
        = (fun p => clampPosition N (p - mathSign d))^[commitCount (dragRun N th sp ⟨p0, lx, pc⟩ gs).2] p0) ∧
    (commitCount (dragRun 10 100 (1/2) ⟨5, 0, false⟩
        [⟨true, true, 101⟩, ⟨false, true, 202⟩, ⟨false, true, 250⟩]).2 = 2 ∧
     (dragRun 10 100 (1/2) ⟨5, 0, false⟩
        [⟨true, true, 101⟩, ⟨false, true, 202⟩, ⟨false, true, 250⟩]).1.position = 3 ∧
     (fun p => clampPosition 10 (p - 1))^[2] (5 : ℤ) = 3) := by
  constructor
  · intro N th sp d p0 lx pc gs hN hth hmono
    have hfloor0 : (0 : ℤ) ≤ ⌊|d| / th⌋ :=
      Int.floor_nonneg.mpr (div_nonneg (abs_nonneg d) hth.le)
    match gs, hmono with
    | [], _ =>
      exact ⟨hfloor0, rfl⟩
    | g :: gs, ⟨hf, h0, hdd, htail⟩ =>
      rw [dragRun_first N th sp p0 lx pc g gs hf]
      have hmt : monoTail d ((⟨p0, 0, pc⟩ : CFState).lastX) (⟨false, g.active, g.mx⟩ :: gs) :=
        ⟨rfl, by simpa using h0, hdd, htail⟩
      have hrun := dragRun_tail_bound N th sp d hth
        (⟨false, g.active, g.mx⟩ :: gs) ⟨p0, 0, pc⟩ hmt
        (by simp) (by simp only [mul_zero]; linarith)
      obtain ⟨h1, h2, h3, h4⟩ := hrun
      refine ⟨?_, h4⟩
      rcases h3 with h | ⟨hc, -⟩
      · rw [Int.le_floor]
        push_cast
        rw [le_div_iff₀ hth, ← dirOf_mul_self d]
        push_cast at h
        have hz : dirOf d * (⟨p0, (0 : ℚ), pc⟩ : CFState).lastX = 0 := by
          norm_num
        linarith [h1]
      · rw [hc]
        exact_mod_cast hfloor0
  · have e1 : dragStep 10 100 (1/2) ⟨5, 0, false⟩ ⟨true, true, 101⟩
        = (⟨4, 101, true⟩, ⟨101 * (1/2), true, 4⟩) := by
      rw [dragStep_commit 10 100 (1/2) ⟨5, 0, false⟩ ⟨true, true, 101⟩
        (by norm_num [rebased])]
      norm_num [rebased, mathSign, clampPosition]
    have e2 : dragStep 10 100 (1/2) ⟨4, 101, true⟩ ⟨false, true, 202⟩
        = (⟨3, 202, true⟩, ⟨101 * (1/2), true, 3⟩) := by
      rw [dragStep_commit 10 100 (1/2) ⟨4, 101, true⟩ ⟨false, true, 202⟩
        (by norm_num [rebased])]
      norm_num [rebased, mathSign, clampPosition]
    have e3 : dragStep 10 100 (1/2) ⟨3, 202, true⟩ ⟨false, true, 250⟩
        = (⟨3, 202, true⟩, ⟨48 * (1/2), false, 3⟩) := by
      rw [dragStep_nocommit 10 100 (1/2) ⟨3, 202, true⟩ ⟨false, true, 250⟩
        (by norm_num [rebased])]
      norm_num [rebased]
    simp only [dragRun, e1, e2, e3]
    refine ⟨by norm_num [commitCount, List.filter], by trivial, ?_⟩
    norm_num [Function.iterate_succ_apply, clampPosition]

/-- Counterexample to C1 as stated: the whole 250-pixel displacement
delivered in a single sample is a monotone drag reaching 250, yet it
commits once, not `⌊250 / 100⌋ = 2` times, because the baseline is rebased
to the full current displacement at the commit. -/
theorem claim_C1_counterexample :
    MonoDrag 250 [⟨true, true, 250⟩] ∧
    commitCount (dragRun 10 100 (1/2) ⟨5, 0, false⟩ [⟨true, true, 250⟩]).2 = 1 ∧
    ⌊(250 : ℚ) / 100⌋ = 2 := by
  have e1 : dragStep 10 100 (1/2) ⟨5, 0, false⟩ ⟨true, true, 250⟩
      = (⟨4, 250, true⟩, ⟨250 * (1/2), true, 4⟩) := by
    rw [dragStep_commit 10 100 (1/2) ⟨5, 0, false⟩ ⟨true, true, 250⟩
      (by norm_num [rebased])]
    norm_num [rebased, mathSign, clampPosition]
  refine ⟨?_, ?_, ?_⟩
  · norm_num [MonoDrag, monoTail, dirOf]
  · simp only [dragRun, e1]
    norm_num [commitCount, List.filter]
  · norm_num

/-- Witness for C1 (amended) at the three-sample scenario stream. -/
theorem claim_C1_witness :
    ((1 : ℕ) ≤ 10 ∧ (0 : ℚ) < 100 ∧
     MonoDrag 250 [⟨true, true, 101⟩, ⟨false, true, 202⟩, ⟨false, true, 250⟩]) ∧
    ((commitCount (dragRun 10 100 (1/2) ⟨5, 0, false⟩
        [⟨true, true, 101⟩, ⟨false, true, 202⟩, ⟨false, true, 250⟩]).2 : ℤ)
       ≤ ⌊|(250 : ℚ)| / 100⌋ ∧
     (dragRun 10 100 (1/2) ⟨5, 0, false⟩
        [⟨true, true, 101⟩, ⟨false, true, 202⟩, ⟨false, true, 250⟩]).1.position
       = (fun p => clampPosition 10 (p - mathSign 250))^[commitCount (dragRun 10 100 (1/2) ⟨5, 0, false⟩
           [⟨true, true, 101⟩, ⟨false, true, 202⟩, ⟨false, true, 250⟩]).2] 5) :=
  ⟨⟨by norm_num, by norm_num, by norm_num [MonoDrag, monoTail, dirOf]⟩,
   claim_C1.1 10 100 (1/2) 250 5 0 false
     [⟨true, true, 101⟩, ⟨false, true, 202⟩, ⟨false, true, 250⟩]
     (by norm_num) (by norm_num)
     (by norm_num [MonoDrag, monoTail, dirOf])⟩

end Coverflow
